import Mathlib

/-!
Verification of the crop-harvest decision solver.

This file gives a shallow embedding of the solver module (`getSeedEV`,
`getCropMultiplier`, `generateKey`, `solve`, and the module-level memo map)
together with the surrounding data model (`LogicPlot`, `GameParams`), and
proves or refutes the specified properties of these functions.

Modelling conventions:
* JavaScript numbers are modelled by `ℚ` (the solver only performs field
  arithmetic and comparisons on them).
* The upgrade count `k` is a natural number (the spec requires `k ≥ 0`, and
  the solver only ever increments it).
* `localeCompare` on identifier strings is modelled as lexicographic
  comparison of the underlying character sequences (`charListLt`).
* The recursion of `solve` terminates because every recursive call receives a
  strictly shorter plot list.  The embedding makes this explicit with a fuel
  parameter: `solveF fuel plots params` runs the recursion to depth `fuel`,
  and `solve` invokes it with fuel equal to the number of plots.  The theorem
  `c10_solve_total` shows any fuel of at least `plots.length` gives the same
  result, so the fuel is an artifact of the embedding, not of the model.
* The module-level mutable `memo : Map<string, SolveResult>` is modelled by
  threading an association list `ResultCache` through `solveMemo`; `Map.set`
  prepends the binding (lookup finds the newest binding first, which agrees
  with overwriting), and `clearMemo` is the empty cache.
-/

/-- Crop colors, source type `CropColor = 'purple' | 'blue' | 'yellow'`. -/
inductive CropColor
  | purple
  | blue
  | yellow
  deriving DecidableEq

/-- Plot side inside a field, source type `'left' | 'right'`. -/
inductive PlotSide
  | left
  | right
  deriving DecidableEq

/-- A plot as seen by the solver, source interface `LogicPlot`. -/
structure LogicPlot where
  fieldId : String
  side : PlotSide
  color : CropColor
  k : Nat
  deriving DecidableEq

/-- Solver parameters, source interface `GameParams`. -/
structure GameParams where
  buyCountPurple : ℚ
  buyCountBlue : ℚ
  buyCountYellow : ℚ
  probSurvival : ℚ
  valL1 : ℚ
  valL2 : ℚ
  valL3 : ℚ
  valL4 : ℚ
  probL1toL2 : ℚ
  probL2toL3 : ℚ
  probL3toL4 : ℚ
  deriving DecidableEq

/-- Result record of the solver, source interface `SolveResult`; the optional
`bestMoveId` field is `none` where the source leaves it `undefined`. -/
structure SolveResult where
  maxEV : ℚ
  path : List String
  bestMoveId : Option String
  deriving DecidableEq

/-- The tier-probability state vector `[ProbL1, ProbL2, ProbL3, ProbL4]`
maintained by `getSeedEV`. -/
structure ProbVec where
  q1 : ℚ
  q2 : ℚ
  q3 : ℚ
  q4 : ℚ

/-- One iteration of the transition loop inside `getSeedEV` (the body of
`for (let i = 0; i < k; i++)`). -/
def seedStep (params : GameParams) (p : ProbVec) : ProbVec :=
  ⟨p.q1 * (1 - params.probL1toL2),
   p.q1 * params.probL1toL2 + p.q2 * (1 - params.probL2toL3),
   p.q2 * params.probL2toL3 + p.q3 * (1 - params.probL3toL4),
   p.q3 * params.probL3toL4 + p.q4 * 1⟩

/-- The state vector after `k` iterations, starting from `[1, 0, 0, 0]`. -/
def seedIter (params : GameParams) : Nat → ProbVec
  | 0 => ⟨1, 0, 0, 0⟩
  | k + 1 => seedStep params (seedIter params k)

/-- Source `getSeedEV`: expected seed value after `k` upgrade checks. -/
def getSeedEV (k : Nat) (params : GameParams) : ℚ :=
  (seedIter params k).q1 * params.valL1 + (seedIter params k).q2 * params.valL2 +
    (seedIter params k).q3 * params.valL3 + (seedIter params k).q4 * params.valL4

/-- Source `getCropMultiplier`: `Max(buyCounts) / specificBuyCount`, with a
guard returning `0` for a non-positive count. -/
def getCropMultiplier (color : CropColor) (params : GameParams) : ℚ :=
  let maxCount := max params.buyCountPurple (max params.buyCountBlue params.buyCountYellow)
  let currentCount :=
    match color with
    | .purple => params.buyCountPurple
    | .blue => params.buyCountBlue
    | .yellow => params.buyCountYellow
  if currentCount ≤ 0 then 0 else maxCount / currentCount

/-- Decimal digit characters of a positive number, most significant first;
`fuel` bounds the number of digits (structural recursion artifact, any
`fuel ≥ n` gives the full representation). -/
def natCharsCore : Nat → Nat → List Char
  | _, 0 => []
  | 0, _ + 1 => []
  | fuel + 1, n + 1 => natCharsCore fuel ((n + 1) / 10) ++ [Nat.digitChar ((n + 1) % 10)]

/-- Decimal representation of a natural number, modelling the JavaScript
number-to-string conversion used by template literals for integers. -/
def natChars (n : Nat) : List Char :=
  if n = 0 then ['0'] else natCharsCore n n

/-- String form of `natChars`. -/
def natStr (n : Nat) : String :=
  ⟨natChars n⟩

/-- Decimal value of a digit string; a left inverse of `natChars`, used to
prove the state-key encoding injective. -/
def natVal (cs : List Char) : Nat :=
  cs.foldl (fun a c => 10 * a + (c.toNat - 48)) 0

/-- The string value of a `side`, as stored in the source union type. -/
def sideStr : PlotSide → String
  | .left => "left"
  | .right => "right"

/-- The string value of a `color`, as stored in the source union type. -/
def colorStr : CropColor → String
  | .purple => "purple"
  | .blue => "blue"
  | .yellow => "yellow"

/-- Lexicographic comparison of character lists; models the ordering that
`localeCompare` induces on identifier strings. -/
def charListLt : List Char → List Char → Bool
  | _, [] => false
  | [], _ :: _ => true
  | a :: as, b :: bs => decide (a < b) || (a == b && charListLt as bs)

/-- Strict string comparison used by the sort comparator in `generateKey`. -/
def localeLt (s t : String) : Bool :=
  charListLt s.data t.data

/-- Boolean form of the comparator from `generateKey`: plot `a` may come
before plot `b` (comparator value `≤ 0`), ordering by `fieldId` and then by
`side`. -/
def plotLeb (a b : LogicPlot) : Bool :=
  if a.fieldId == b.fieldId then !localeLt (sideStr b.side) (sideStr a.side)
  else localeLt a.fieldId b.fieldId

/-- Propositional form of `plotLeb`, the relation the stable sort inside
`generateKey` sorts by. -/
def plotLe (a b : LogicPlot) : Prop :=
  plotLeb a b = true

instance : DecidableRel plotLe :=
  fun a b => inferInstanceAs (Decidable (plotLeb a b = true))

/-- The strict part of the comparator ordering: strictly smaller `fieldId`,
or equal `fieldId` and strictly smaller `side` string. -/
def plotLt (a b : LogicPlot) : Prop :=
  if a.fieldId = b.fieldId
  then charListLt (sideStr a.side).data (sideStr b.side).data = true
  else charListLt a.fieldId.data b.fieldId.data = true

/-- The sort inside `generateKey`: JavaScript `Array.prototype.sort` is
stable, which insertion sort with the `plotLe` comparator reproduces. -/
def sortPlots (plots : List LogicPlot) : List LogicPlot :=
  List.insertionSort plotLe plots

/-- One record `fieldId:side:color:k` of the state key. -/
def plotRecord (p : LogicPlot) : String :=
  p.fieldId ++ ":" ++ sideStr p.side ++ ":" ++ colorStr p.color ++ ":" ++ natStr p.k

/-- JavaScript `Array.prototype.join('|')`. -/
def joinBar : List String → String
  | [] => ""
  | [s] => s
  | s :: rest => s ++ "|" ++ joinBar rest

/-- Source `generateKey`: canonical state key of a plot list. -/
def generateKey (plots : List LogicPlot) : String :=
  joinBar ((sortPlots plots).map plotRecord)

/-- Source `getPlotDisplayName`. -/
def getPlotDisplayName (p : LogicPlot) : String :=
  "[" ++ p.fieldId ++ " " ++ (match p.side with | .left => "左" | .right => "右") ++ "] " ++
    (match p.color with | .purple => "紫" | .blue => "蓝" | .yellow => "黄")

/-- The step description recorded in `path` when a plot is harvested. -/
def stepDescOf (p : LogicPlot) : String :=
  "收割 " ++ getPlotDisplayName p ++ " (Lv." ++ natStr p.k ++ ")"

/-- The plot id recorded in `bestMoveId`, e.g. `field1-L`. -/
def plotIdOf (p : LogicPlot) : String :=
  p.fieldId ++ "-" ++ (match p.side with | .left => "L" | .right => "R")

/-- Global update applied to a surviving non-harvested plot: `k + 1` if its
color differs from the harvested color. -/
def bumpGlobal (c : CropColor) (p : LogicPlot) : LogicPlot :=
  ⟨p.fieldId, p.side, p.color, if p.color ≠ c then p.k + 1 else p.k⟩

/-- Update applied to a surviving neighbor: global plus local update,
`k + 2` if its color differs from the harvested color. -/
def bumpNeighbor (c : CropColor) (p : LogicPlot) : LogicPlot :=
  ⟨p.fieldId, p.side, p.color, if p.color ≠ c then p.k + 2 else p.k⟩

/-- `otherPlots.find(p => p.fieldId === currentPlot.fieldId)`. -/
def neighborOf (cur : LogicPlot) (others : List LogicPlot) : Option LogicPlot :=
  others.find? fun q => q.fieldId == cur.fieldId

/-- `otherPlots.filter(p => p.fieldId !== currentPlot.fieldId)`. -/
def nonNeighborsOf (cur : LogicPlot) (others : List LogicPlot) : List LogicPlot :=
  others.filter fun q => !(q.fieldId == cur.fieldId)

/-- Branch A state: the harvested plot and its neighbor are gone, all other
plots receive the global update. -/
def nextA (cur : LogicPlot) (others : List LogicPlot) : List LogicPlot :=
  (nonNeighborsOf cur others).map (bumpGlobal cur.color)

/-- Branch B state: the neighbor survives with the double update, all other
plots receive the global update. -/
def nextB (cur nb : LogicPlot) (others : List LogicPlot) : List LogicPlot :=
  bumpNeighbor cur.color nb :: nextA cur others

/-- Immediate gain of harvesting a plot: `multiplier * seedEV`. -/
def immediateGain (cur : LogicPlot) (params : GameParams) : ℚ :=
  getCropMultiplier cur.color params * getSeedEV cur.k params

/-- Body of one iteration of the candidate loop in `solve`: score harvesting
plot `i` and replace `best` on strict improvement.  The recursive calls of
`solve` are abstracted into `rec`. -/
def solveStep (rec : List LogicPlot → SolveResult) (params : GameParams)
    (plots : List LogicPlot) (best : SolveResult) (i : Nat) : SolveResult :=
  match plots[i]? with
  | none => best
  | some cur =>
    let others := plots.eraseIdx i
    let resA := rec (nextA cur others)
    let totalEV :=
      match neighborOf cur others with
      | some nb =>
        immediateGain cur params + (1 - params.probSurvival) * resA.maxEV +
          params.probSurvival * (rec (nextB cur nb others)).maxEV
      | none => immediateGain cur params + resA.maxEV
    if totalEV > best.maxEV then ⟨totalEV, stepDescOf cur :: resA.path, some (plotIdOf cur)⟩
    else best

/-- Source `solve` (without the memo map), with a fuel parameter bounding the
recursion depth; `solve` below supplies sufficient fuel. -/
def solveF : Nat → List LogicPlot → GameParams → SolveResult
  | _, [], _ => ⟨0, [], none⟩
  | 0, _ :: _, _ => ⟨0, [], none⟩
  | fuel + 1, p :: ps, params =>
    (List.range (p :: ps).length).foldl
      (solveStep (fun s => solveF fuel s params) params (p :: ps)) ⟨-1, [], none⟩

/-- Source `solve`: recursion depth is bounded by the number of plots, proved
in `c10_solve_total`. -/
def solve (plots : List LogicPlot) (params : GameParams) : SolveResult :=
  solveF plots.length plots params

/-- Total expected value of choosing plot `i` first (step 4 of the recursive
case): `gain + (1 − B) · A + B · B'` with a neighbor, `gain + A` without. -/
def candEV (params : GameParams) (plots : List LogicPlot) (i : Nat) : ℚ :=
  match plots[i]? with
  | none => -1
  | some cur =>
    let others := plots.eraseIdx i
    match neighborOf cur others with
    | some nb =>
      immediateGain cur params +
        (1 - params.probSurvival) * (solve (nextA cur others) params).maxEV +
        params.probSurvival * (solve (nextB cur nb others) params).maxEV
    | none => immediateGain cur params + (solve (nextA cur others) params).maxEV

/-- The path recorded when plot `i` wins the candidate loop: its own step
description followed by branch A's path. -/
def candPath (params : GameParams) (plots : List LogicPlot) (i : Nat) : List String :=
  match plots[i]? with
  | none => []
  | some cur => stepDescOf cur :: (solve (nextA cur (plots.eraseIdx i)) params).path

/-- The move id recorded when plot `i` wins the candidate loop. -/
def candId (plots : List LogicPlot) (i : Nat) : Option String :=
  match plots[i]? with
  | none => none
  | some cur => some (plotIdOf cur)

/-- The memo map: an association list from state keys to results; `Map.set`
prepends, so `lookup` sees the newest binding, as with overwriting. -/
abbrev ResultCache : Type :=
  List (String × SolveResult)

/-- Source `clearMemo` yields the empty cache. -/
def clearMemo : ResultCache :=
  []

/-- Candidate-loop body of the memoized solver, threading the cache through
the two recursive calls (branch A first, then branch B, as in the source). -/
def solveStepM (rec : List LogicPlot → ResultCache → SolveResult × ResultCache)
    (params : GameParams) (plots : List LogicPlot)
    (st : SolveResult × ResultCache) (i : Nat) : SolveResult × ResultCache :=
  match plots[i]? with
  | none => st
  | some cur =>
    let others := plots.eraseIdx i
    let ra := rec (nextA cur others) st.2
    match neighborOf cur others with
    | some nb =>
      let rb := rec (nextB cur nb others) ra.2
      let totalEV := immediateGain cur params + (1 - params.probSurvival) * ra.1.maxEV +
        params.probSurvival * rb.1.maxEV
      ⟨if totalEV > st.1.maxEV then ⟨totalEV, stepDescOf cur :: ra.1.path, some (plotIdOf cur)⟩
        else st.1, rb.2⟩
    | none =>
      let totalEV := immediateGain cur params + ra.1.maxEV
      ⟨if totalEV > st.1.maxEV then ⟨totalEV, stepDescOf cur :: ra.1.path, some (plotIdOf cur)⟩
        else st.1, ra.2⟩

/-- `memo.set(stateKey, bestResult); return bestResult`. -/
def addKey (key : String) (res : SolveResult × ResultCache) : SolveResult × ResultCache :=
  ⟨res.1, (key, res.1) :: res.2⟩

/-- Source `solve` with its memo map made explicit: probe the cache under the
canonical key, and store the computed best result before returning. -/
def solveMemoF : Nat → List LogicPlot → GameParams → ResultCache → SolveResult × ResultCache
  | _, [], _, cache => ⟨⟨0, [], none⟩, cache⟩
  | 0, _ :: _, _, cache => ⟨⟨0, [], none⟩, cache⟩
  | fuel + 1, p :: ps, params, cache =>
    match cache.lookup (generateKey (p :: ps)) with
    | some r => ⟨r, cache⟩
    | none =>
      addKey (generateKey (p :: ps))
        ((List.range (p :: ps).length).foldl
          (solveStepM (fun s c => solveMemoF fuel s params c) params (p :: ps))
          ⟨⟨-1, [], none⟩, cache⟩)

/-- Memoized solver entry point. -/
def solveMemo (plots : List LogicPlot) (params : GameParams) (cache : ResultCache) :
    SolveResult × ResultCache :=
  solveMemoF plots.length plots params cache

/-! Lemmas about the seed value model. -/

theorem getSeedEV_zero (params : GameParams) : getSeedEV 0 params = params.valL1 := by
  simp [getSeedEV, seedIter]

theorem seedIter_invariant (params : GameParams)
    (h1 : 0 ≤ params.probL1toL2) (h1' : params.probL1toL2 ≤ 1)
    (h2 : 0 ≤ params.probL2toL3) (h2' : params.probL2toL3 ≤ 1)
    (h3 : 0 ≤ params.probL3toL4) (h3' : params.probL3toL4 ≤ 1) (k : Nat) :
    0 ≤ (seedIter params k).q1 ∧ 0 ≤ (seedIter params k).q2 ∧
      0 ≤ (seedIter params k).q3 ∧ 0 ≤ (seedIter params k).q4 ∧
      (seedIter params k).q1 + (seedIter params k).q2 + (seedIter params k).q3 +
        (seedIter params k).q4 = 1 := by
  induction k with
  | zero => norm_num [seedIter]
  | succ k ih =>
    obtain ⟨a, b, c, d, s⟩ := ih
    refine ⟨?_, ?_, ?_, ?_, ?_⟩ <;> simp only [seedIter, seedStep] <;> nlinarith

/-- C6: for every k, `expectedValue(k)` is a convex combination of the four
tier values (it lies between their minimum and their maximum) whenever the
three tier-transition probabilities lie in [0, 1]; and `expectedValue(0)`
equals the tier-1 value exactly. -/
theorem c6_expected_value_convex (params : GameParams) (k : Nat)
    (h1 : 0 ≤ params.probL1toL2) (h1' : params.probL1toL2 ≤ 1)
    (h2 : 0 ≤ params.probL2toL3) (h2' : params.probL2toL3 ≤ 1)
    (h3 : 0 ≤ params.probL3toL4) (h3' : params.probL3toL4 ≤ 1) :
    (min (min (min params.valL1 params.valL2) params.valL3) params.valL4 ≤ getSeedEV k params ∧
      getSeedEV k params ≤ max (max (max params.valL1 params.valL2) params.valL3) params.valL4) ∧
    getSeedEV 0 params = params.valL1 := by
  obtain ⟨a, b, c, d, s⟩ := seedIter_invariant params h1 h1' h2 h2' h3 h3' k
  refine ⟨⟨?_, ?_⟩, getSeedEV_zero params⟩
  · have m1 : min (min (min params.valL1 params.valL2) params.valL3) params.valL4 ≤
        params.valL1 :=
      le_trans (min_le_left _ _) (le_trans (min_le_left _ _) (min_le_left _ _))
    have m2 : min (min (min params.valL1 params.valL2) params.valL3) params.valL4 ≤
        params.valL2 :=
      le_trans (min_le_left _ _) (le_trans (min_le_left _ _) (min_le_right _ _))
    have m3 : min (min (min params.valL1 params.valL2) params.valL3) params.valL4 ≤
        params.valL3 :=
      le_trans (min_le_left _ _) (min_le_right _ _)
    have m4 : min (min (min params.valL1 params.valL2) params.valL3) params.valL4 ≤
        params.valL4 := min_le_right _ _
    unfold getSeedEV
    calc min (min (min params.valL1 params.valL2) params.valL3) params.valL4
        = ((seedIter params k).q1 + (seedIter params k).q2 + (seedIter params k).q3 +
            (seedIter params k).q4) *
            min (min (min params.valL1 params.valL2) params.valL3) params.valL4 := by
          rw [s, one_mul]
      _ = (seedIter params k).q1 *
            min (min (min params.valL1 params.valL2) params.valL3) params.valL4 +
          (seedIter params k).q2 *
            min (min (min params.valL1 params.valL2) params.valL3) params.valL4 +
          (seedIter params k).q3 *
            min (min (min params.valL1 params.valL2) params.valL3) params.valL4 +
          (seedIter params k).q4 *
            min (min (min params.valL1 params.valL2) params.valL3) params.valL4 := by ring
      _ ≤ (seedIter params k).q1 * params.valL1 + (seedIter params k).q2 * params.valL2 +
          (seedIter params k).q3 * params.valL3 + (seedIter params k).q4 * params.valL4 :=
          add_le_add (add_le_add (add_le_add (mul_le_mul_of_nonneg_left m1 a)
            (mul_le_mul_of_nonneg_left m2 b)) (mul_le_mul_of_nonneg_left m3 c))
            (mul_le_mul_of_nonneg_left m4 d)
  · have m1 : params.valL1 ≤
        max (max (max params.valL1 params.valL2) params.valL3) params.valL4 :=
      le_trans (le_trans (le_max_left _ _) (le_max_left _ _)) (le_max_left _ _)
    have m2 : params.valL2 ≤
        max (max (max params.valL1 params.valL2) params.valL3) params.valL4 :=
      le_trans (le_trans (le_max_right _ _) (le_max_left _ _)) (le_max_left _ _)
    have m3 : params.valL3 ≤
        max (max (max params.valL1 params.valL2) params.valL3) params.valL4 :=
      le_trans (le_max_right _ _) (le_max_left _ _)
    have m4 : params.valL4 ≤
        max (max (max params.valL1 params.valL2) params.valL3) params.valL4 :=
      le_max_right _ _
    unfold getSeedEV
    calc (seedIter params k).q1 * params.valL1 + (seedIter params k).q2 * params.valL2 +
          (seedIter params k).q3 * params.valL3 + (seedIter params k).q4 * params.valL4
        ≤ (seedIter params k).q1 *
            max (max (max params.valL1 params.valL2) params.valL3) params.valL4 +
          (seedIter params k).q2 *
            max (max (max params.valL1 params.valL2) params.valL3) params.valL4 +
          (seedIter params k).q3 *
            max (max (max params.valL1 params.valL2) params.valL3) params.valL4 +
          (seedIter params k).q4 *
            max (max (max params.valL1 params.valL2) params.valL3) params.valL4 :=
          add_le_add (add_le_add (add_le_add (mul_le_mul_of_nonneg_left m1 a)
            (mul_le_mul_of_nonneg_left m2 b)) (mul_le_mul_of_nonneg_left m3 c))
            (mul_le_mul_of_nonneg_left m4 d)
      _ = ((seedIter params k).q1 + (seedIter params k).q2 + (seedIter params k).q3 +
            (seedIter params k).q4) *
            max (max (max params.valL1 params.valL2) params.valL3) params.valL4 := by ring
      _ = max (max (max params.valL1 params.valL2) params.valL3) params.valL4 := by
          rw [s, one_mul]

theorem c6_witness :
    ((0 : ℚ) ≤ 0 ∧ (0 : ℚ) ≤ 1 ∧ (0 : ℚ) ≤ 1 ∧ (1 : ℚ) ≤ 1) ∧
    (min (min (min (2 : ℚ) 3) 5) 8 ≤ getSeedEV 4 ⟨1, 1, 1, 0, 2, 3, 5, 8, 0, 1, 0⟩ ∧
      getSeedEV 4 ⟨1, 1, 1, 0, 2, 3, 5, 8, 0, 1, 0⟩ ≤ max (max (max (2 : ℚ) 3) 5) 8) ∧
    getSeedEV 0 ⟨1, 1, 1, 0, 2, 3, 5, 8, 0, 1, 0⟩ = 2 :=
  ⟨⟨by decide, by decide, by decide, by decide⟩,
    c6_expected_value_convex ⟨1, 1, 1, 0, 2, 3, 5, 8, 0, 1, 0⟩ 4
      (by decide) (by decide) (by decide) (by decide) (by decide) (by decide)⟩

/-- C8: the crop multiplier is scale-invariant — scaling all three reference
quantities by the same positive constant leaves every multiplier unchanged. -/
theorem c8_multiplier_scale_invariant (c : ℚ) (hc : 0 < c) (color : CropColor)
    (params : GameParams) :
    getCropMultiplier color
      ⟨c * params.buyCountPurple, c * params.buyCountBlue, c * params.buyCountYellow,
        params.probSurvival, params.valL1, params.valL2, params.valL3, params.valL4,
        params.probL1toL2, params.probL2toL3, params.probL3toL4⟩ =
      getCropMultiplier color params := by
  have hmax : max (c * params.buyCountPurple)
      (max (c * params.buyCountBlue) (c * params.buyCountYellow)) =
      c * max params.buyCountPurple (max params.buyCountBlue params.buyCountYellow) := by
    rw [mul_max_of_nonneg _ _ hc.le, mul_max_of_nonneg _ _ hc.le]
  have hne : c ≠ 0 := ne_of_gt hc
  cases color <;> simp only [getCropMultiplier, hmax] <;>
    exact if_congr ⟨fun h => by nlinarith, fun h => by nlinarith⟩ rfl
      (mul_div_mul_left _ _ hne)

theorem c8_witness :
    (0 : ℚ) < 2 ∧
    getCropMultiplier CropColor.blue
      ⟨2 * 3, 2 * 4, 2 * 5, 0, 1, 1, 1, 1, 0, 0, 0⟩ =
      getCropMultiplier CropColor.blue ⟨3, 4, 5, 0, 1, 1, 1, 1, 0, 0, 0⟩ :=
  ⟨by decide, c8_multiplier_scale_invariant 2 (by decide) CropColor.blue
    ⟨3, 4, 5, 0, 1, 1, 1, 1, 0, 0, 0⟩⟩

/-! Lemmas about the solver recursion. -/

theorem solveF_nil (fuel : Nat) (params : GameParams) : solveF fuel [] params = ⟨0, [], none⟩ := by
  cases fuel <;> rfl

theorem solve_nil (params : GameParams) : solve [] params = ⟨0, [], none⟩ :=
  rfl

theorem length_filter_lt_of_mem {α : Type} (p : α → Bool) (l : List α) (x : α)
    (hx : x ∈ l) (hp : p x = false) : (l.filter p).length < l.length := by
  induction l with
  | nil => cases hx
  | cons y ys ih =>
    rw [List.mem_cons] at hx
    rcases hx with hx | hx
    · subst hx
      rw [List.filter_cons_of_neg (by simp [hp])]
      exact Nat.lt_succ_of_le (List.length_filter_le _ _)
    · cases hpy : p y
      · rw [List.filter_cons_of_neg (by simp [hpy])]
        exact Nat.lt_succ_of_lt (ih hx)
      · rw [List.filter_cons_of_pos (by simp [hpy])]
        simpa using Nat.succ_lt_succ (ih hx)

theorem nextA_length_le (cur : LogicPlot) (others : List LogicPlot) :
    (nextA cur others).length ≤ others.length := by
  simpa [nextA, nonNeighborsOf] using List.length_filter_le _ others

theorem nextB_length_le (cur nb : LogicPlot) (others : List LogicPlot)
    (h : neighborOf cur others = some nb) : (nextB cur nb others).length ≤ others.length := by
  have h2 : others.find? (fun q => q.fieldId == cur.fieldId) = some nb := h
  have hmem : nb ∈ others := List.mem_of_find?_eq_some h2
  have hpred : (nb.fieldId == cur.fieldId) = true := by simpa using List.find?_some h2
  have hlt : (others.filter fun q => !(q.fieldId == cur.fieldId)).length < others.length :=
    length_filter_lt_of_mem _ others nb hmem (by simp [hpred])
  simp only [nextB, nextA, nonNeighborsOf, List.length_cons, List.length_map]
  omega

theorem nextA_length_lt (plots : List LogicPlot) (i : Nat) (cur : LogicPlot)
    (hi : i < plots.length) : (nextA cur (plots.eraseIdx i)).length < plots.length := by
  have h1 := nextA_length_le cur (plots.eraseIdx i)
  have h2 : (plots.eraseIdx i).length + 1 = plots.length := List.length_eraseIdx_add_one hi
  omega

theorem nextB_length_lt (plots : List LogicPlot) (i : Nat) (cur nb : LogicPlot)
    (hi : i < plots.length) (h : neighborOf cur (plots.eraseIdx i) = some nb) :
    (nextB cur nb (plots.eraseIdx i)).length < plots.length := by
  have h1 := nextB_length_le cur nb _ h
  have h2 : (plots.eraseIdx i).length + 1 = plots.length := List.length_eraseIdx_add_one hi
  omega

theorem foldl_congr_fun {α β : Type} {f g : β → α → β} :
    ∀ (l : List α) (init : β), (∀ b a, a ∈ l → f b a = g b a) →
      l.foldl f init = l.foldl g init := by
  intro l
  induction l with
  | nil => intro init h; rfl
  | cons x xs ih =>
    intro init h
    simp only [List.foldl_cons]
    rw [h init x (by simp)]
    exact ih _ fun b a ha => h b a (by simp [ha])

theorem solveStep_congr (r1 r2 : List LogicPlot → SolveResult) (params : GameParams)
    (plots : List LogicPlot) (H : ∀ s, s.length < plots.length → r1 s = r2 s)
    (best : SolveResult) (i : Nat) :
    solveStep r1 params plots best i = solveStep r2 params plots best i := by
  cases hcur : plots[i]? with
  | none => simp [solveStep, hcur]
  | some cur =>
    have hi : i < plots.length := by
      by_contra hlt
      rw [List.getElem?_eq_none (le_of_not_lt hlt)] at hcur
      cases hcur
    have hA := H (nextA cur (plots.eraseIdx i)) (nextA_length_lt plots i cur hi)
    cases hnb : neighborOf cur (plots.eraseIdx i) with
    | none => simp [solveStep, hcur, hnb, hA]
    | some nb =>
      have hB := H (nextB cur nb (plots.eraseIdx i)) (nextB_length_lt plots i cur nb hi hnb)
      simp [solveStep, hcur, hnb, hA, hB]

theorem solveF_congr : ∀ (f1 f2 : Nat) (plots : List LogicPlot) (params : GameParams),
    plots.length ≤ f1 → plots.length ≤ f2 → solveF f1 plots params = solveF f2 plots params := by
  intro f1
  induction f1 with
  | zero =>
    intro f2 plots params h1 h2
    have hnil : plots = [] := List.eq_nil_of_length_eq_zero (Nat.le_zero.mp h1)
    subst hnil
    rw [solveF_nil, solveF_nil]
  | succ a ih =>
    intro f2 plots params h1 h2
    cases plots with
    | nil => rw [solveF_nil, solveF_nil]
    | cons p ps =>
      cases f2 with
      | zero => simp at h2
      | succ b =>
        have h1' : ps.length + 1 ≤ a + 1 := by simpa using h1
        have h2' : ps.length + 1 ≤ b + 1 := by simpa using h2
        simp only [solveF]
        apply foldl_congr_fun
        intro best i _
        apply solveStep_congr
        intro s hs
        have hs' : s.length < ps.length + 1 := by simpa using hs
        exact ih b s params (by omega) (by omega)

theorem solveF_eq_solve (fuel : Nat) (plots : List LogicPlot) (params : GameParams)
    (h : plots.length ≤ fuel) : solveF fuel plots params = solve plots params :=
  solveF_congr fuel plots.length plots params h le_rfl

theorem solveStep_eq_cand (params : GameParams) (plots : List LogicPlot)
    (r : List LogicPlot → SolveResult) (H : ∀ s, s.length < plots.length → r s = solve s params)
    (best : SolveResult) (i : Nat) (hi : i < plots.length) :
    solveStep r params plots best i =
      if candEV params plots i > best.maxEV
      then ⟨candEV params plots i, candPath params plots i, candId plots i⟩
      else best := by
  have hcur : plots[i]? = some plots[i] := List.getElem?_eq_getElem hi
  have hA := H (nextA plots[i] (plots.eraseIdx i)) (nextA_length_lt plots i plots[i] hi)
  cases hnb : neighborOf plots[i] (plots.eraseIdx i) with
  | none => simp [solveStep, candEV, candPath, candId, hcur, hnb, hA]
  | some nb =>
    have hB := H (nextB plots[i] nb (plots.eraseIdx i))
      (nextB_length_lt plots i plots[i] nb hi hnb)
    simp [solveStep, candEV, candPath, candId, hcur, hnb, hA, hB]

theorem foldl_step_maxEV (params : GameParams) (plots : List LogicPlot)
    (r : List LogicPlot → SolveResult) (H : ∀ s, s.length < plots.length → r s = solve s params) :
    ∀ (idxs : List Nat) (best : SolveResult), (∀ i ∈ idxs, i < plots.length) →
      (idxs.foldl (solveStep r params plots) best).maxEV =
        (idxs.map (candEV params plots)).foldl max best.maxEV := by
  intro idxs
  induction idxs with
  | nil => intro best _; rfl
  | cons i is ih =>
    intro best h
    have hi : i < plots.length := h i (by simp)
    have hrest : ∀ j ∈ is, j < plots.length := fun j hj => h j (by simp [hj])
    simp only [List.foldl_cons, List.map_cons]
    rw [solveStep_eq_cand params plots r H best i hi]
    by_cases hgt : candEV params plots i > best.maxEV
    · rw [if_pos hgt, ih _ hrest]
      congr 1
      exact (max_eq_right (le_of_lt hgt)).symm
    · rw [if_neg hgt, ih _ hrest]
      congr 1
      exact (max_eq_left (not_lt.mp hgt)).symm

theorem foldl_step_fixed (params : GameParams) (plots : List LogicPlot)
    (r : List LogicPlot → SolveResult) (H : ∀ s, s.length < plots.length → r s = solve s params) :
    ∀ (idxs : List Nat) (best : SolveResult),
      (∀ i ∈ idxs, i < plots.length ∧ candEV params plots i ≤ best.maxEV) →
      idxs.foldl (solveStep r params plots) best = best := by
  intro idxs
  induction idxs with
  | nil => intro best _; rfl
  | cons i is ih =>
    intro best h
    obtain ⟨hi, hle⟩ := h i (by simp)
    simp only [List.foldl_cons]
    rw [solveStep_eq_cand params plots r H best i hi, if_neg (not_lt.mpr hle)]
    exact ih best fun j hj => h j (by simp [hj])

theorem solve_cons_eq (p : LogicPlot) (ps : List LogicPlot) (params : GameParams) :
    solve (p :: ps) params =
      (List.range (p :: ps).length).foldl
        (solveStep (fun s => solveF ps.length s params) params (p :: ps)) ⟨-1, [], none⟩ := by
  show solveF (p :: ps).length (p :: ps) params = _
  rw [List.length_cons]
  simp only [solveF, List.length_cons]

/-! Evaluation lemmas for small states. -/

theorem candEV_single (params : GameParams) (p : LogicPlot) :
    candEV params [p] 0 = immediateGain p params := by
  simp [candEV, neighborOf, nonNeighborsOf, nextA, solve_nil, List.eraseIdx]

theorem candPath_single (params : GameParams) (p : LogicPlot) :
    candPath params [p] 0 = [stepDescOf p] := by
  simp [candPath, nonNeighborsOf, nextA, solve_nil, List.eraseIdx]

theorem candId_single (p : LogicPlot) : candId [p] 0 = some (plotIdOf p) := by
  simp [candId]

theorem solve_single_eq (p : LogicPlot) (params : GameParams) :
    solve [p] params =
      if immediateGain p params > -1
      then ⟨immediateGain p params, [stepDescOf p], some (plotIdOf p)⟩
      else ⟨-1, [], none⟩ := by
  have H : ∀ s : List LogicPlot, s.length < ([p] : List LogicPlot).length →
      solveF ([] : List LogicPlot).length s params = solve s params := by
    intro s hs
    have hlen : s.length = 0 := by simpa [Nat.lt_one_iff] using hs
    rw [List.eq_nil_of_length_eq_zero hlen, List.length_nil, solveF_nil, solve_nil]
  rw [solve_cons_eq]
  have hr : List.range ([p] : List LogicPlot).length = [0] := rfl
  rw [hr]
  simp only [List.foldl_cons, List.foldl_nil]
  rw [solveStep_eq_cand params [p] _ H ⟨-1, [], none⟩ 0 (by norm_num)]
  rw [candEV_single, candPath_single, candId_single]

theorem solve_pair_eq (P Q : LogicPlot) (params : GameParams) :
    solve [P, Q] params =
      if candEV params [P, Q] 1 >
          (if candEV params [P, Q] 0 > -1 then candEV params [P, Q] 0 else -1)
      then ⟨candEV params [P, Q] 1, candPath params [P, Q] 1, candId [P, Q] 1⟩
      else if candEV params [P, Q] 0 > -1
        then ⟨candEV params [P, Q] 0, candPath params [P, Q] 0, candId [P, Q] 0⟩
        else ⟨-1, [], none⟩ := by
  have H : ∀ s : List LogicPlot, s.length < ([P, Q] : List LogicPlot).length →
      solveF ([Q] : List LogicPlot).length s params = solve s params := by
    intro s hs
    refine solveF_eq_solve _ s params ?_
    simp only [List.length_cons, List.length_nil] at hs ⊢
    omega
  rw [solve_cons_eq]
  have hr : List.range ([P, Q] : List LogicPlot).length = [0, 1] := rfl
  rw [hr]
  simp only [List.foldl_cons, List.foldl_nil]
  rw [solveStep_eq_cand params [P, Q] _ H _ 1 (by norm_num)]
  rw [solveStep_eq_cand params [P, Q] _ H _ 0 (by norm_num)]
  simp only [apply_ite SolveResult.maxEV]

theorem candEV_pair_same_field_0 (params : GameParams) (f : String) (s1 s2 : PlotSide)
    (c1 c2 : CropColor) (k1 k2 : Nat) (hB : params.probSurvival = 0) :
    candEV params [⟨f, s1, c1, k1⟩, ⟨f, s2, c2, k2⟩] 0 =
      immediateGain ⟨f, s1, c1, k1⟩ params := by
  simp [candEV, neighborOf, nonNeighborsOf, nextA, solve_nil, List.eraseIdx, List.find?, hB]

theorem candEV_pair_same_field_1 (params : GameParams) (f : String) (s1 s2 : PlotSide)
    (c1 c2 : CropColor) (k1 k2 : Nat) (hB : params.probSurvival = 0) :
    candEV params [⟨f, s1, c1, k1⟩, ⟨f, s2, c2, k2⟩] 1 =
      immediateGain ⟨f, s2, c2, k2⟩ params := by
  simp [candEV, neighborOf, nonNeighborsOf, nextA, solve_nil, List.eraseIdx, List.find?, hB]

theorem candPath_pair_same_field_0 (params : GameParams) (f : String) (s1 s2 : PlotSide)
    (c1 c2 : CropColor) (k1 k2 : Nat) :
    candPath params [⟨f, s1, c1, k1⟩, ⟨f, s2, c2, k2⟩] 0 = [stepDescOf ⟨f, s1, c1, k1⟩] := by
  simp [candPath, nonNeighborsOf, nextA, solve_nil, List.eraseIdx]

theorem candPath_pair_same_field_1 (params : GameParams) (f : String) (s1 s2 : PlotSide)
    (c1 c2 : CropColor) (k1 k2 : Nat) :
    candPath params [⟨f, s1, c1, k1⟩, ⟨f, s2, c2, k2⟩] 1 = [stepDescOf ⟨f, s2, c2, k2⟩] := by
  simp [candPath, nonNeighborsOf, nextA, solve_nil, List.eraseIdx]

theorem candEV_pair_diff_0 (params : GameParams) (P Q : LogicPlot)
    (hf : P.fieldId ≠ Q.fieldId) :
    candEV params [P, Q] 0 =
      immediateGain P params + (solve [bumpGlobal P.color Q] params).maxEV := by
  have hbeq : (Q.fieldId == P.fieldId) = false := beq_eq_false_iff_ne.mpr (Ne.symm hf)
  simp [candEV, neighborOf, nonNeighborsOf, nextA, List.eraseIdx, List.find?, hbeq]

theorem candEV_pair_diff_1 (params : GameParams) (P Q : LogicPlot)
    (hf : P.fieldId ≠ Q.fieldId) :
    candEV params [P, Q] 1 =
      immediateGain Q params + (solve [bumpGlobal Q.color P] params).maxEV := by
  have hbeq : (P.fieldId == Q.fieldId) = false := beq_eq_false_iff_ne.mpr hf
  simp [candEV, neighborOf, nonNeighborsOf, nextA, List.eraseIdx, List.find?, hbeq]

theorem candId_pair_0 (P Q : LogicPlot) : candId [P, Q] 0 = some (plotIdOf P) := by
  simp [candId]

theorem candId_pair_1 (P Q : LogicPlot) : candId [P, Q] 1 = some (plotIdOf Q) := by
  simp [candId]

theorem immediateGain_eval (p : LogicPlot) (params : GameParams)
    (hb : params.buyCountBlue = params.buyCountPurple)
    (hy : params.buyCountYellow = params.buyCountPurple)
    (h0 : 0 < params.buyCountPurple) (hk : p.k = 0) :
    immediateGain p params = params.valL1 := by
  have hm : getCropMultiplier p.color params = 1 := by
    cases hcol : p.color <;>
      simp [getCropMultiplier, hb, hy, max_self, h0.not_le, div_self (ne_of_gt h0)]
  simp [immediateGain, hm, hk, getSeedEV_zero]

/-! Claims about the recursion itself. -/

/-- C10 (confirmed): `solve` is total — both branch states are strictly
shorter than the current state (see `nextA_length_lt` and `nextB_length_lt`),
so the recursion completes within depth `plots.length`: running the recursion
with any fuel of at least `plots.length` yields the same complete result that
`solve` returns. -/
theorem c10_solve_total (plots : List LogicPlot) (params : GameParams) (fuel : Nat)
    (h : plots.length ≤ fuel) : solveF fuel plots params = solve plots params :=
  solveF_eq_solve fuel plots params h

theorem c10_witness :
    ([(⟨"f1", .left, .purple, 0⟩ : LogicPlot), ⟨"f1", .right, .blue, 0⟩] : List LogicPlot).length ≤ 7 ∧
    solveF 7 [⟨"f1", .left, .purple, 0⟩, ⟨"f1", .right, .blue, 0⟩] ⟨1, 1, 1, 0, 7, 9, 11, 13, 0, 0, 0⟩ =
      solve [⟨"f1", .left, .purple, 0⟩, ⟨"f1", .right, .blue, 0⟩] ⟨1, 1, 1, 0, 7, 9, 11, 13, 0, 0, 0⟩ :=
  ⟨by decide, c10_solve_total [⟨"f1", .left, .purple, 0⟩, ⟨"f1", .right, .blue, 0⟩]
    ⟨1, 1, 1, 0, 7, 9, 11, 13, 0, 0, 0⟩ 7 (by decide)⟩

/-- C1 (amended): for a non-empty plot list, `solve` returns `maxEV` equal to
the running maximum — seeded with the sentinel value `-1` — of the per-choice
expected values `candEV` (immediate gain plus the survival-weighted branch
values when a neighbor exists, or gain plus branch A alone when none does).
The original claim, which omits the `-1` seed, fails when every candidate is
below the sentinel; see the counterexample. -/
theorem c1_solve_maxEV_running_max (plots : List LogicPlot) (params : GameParams)
    (h : plots ≠ []) :
    (solve plots params).maxEV =
      ((List.range plots.length).map (candEV params plots)).foldl max (-1) := by
  cases plots with
  | nil => exact absurd rfl h
  | cons p ps =>
    rw [solve_cons_eq]
    have H : ∀ s : List LogicPlot, s.length < (p :: ps).length →
        solveF ps.length s params = solve s params := by
      intro s hs
      refine solveF_eq_solve ps.length s params ?_
      simp only [List.length_cons] at hs
      omega
    exact foldl_step_maxEV params (p :: ps) _ H (List.range (p :: ps).length) ⟨-1, [], none⟩
      fun i hi => List.mem_range.mp hi

theorem c1_witness :
    ([(⟨"f1", .left, .purple, 0⟩ : LogicPlot), ⟨"f2", .left, .blue, 1⟩] : List LogicPlot) ≠ [] ∧
    (solve [⟨"f1", .left, .purple, 0⟩, ⟨"f2", .left, .blue, 1⟩]
        ⟨1, 1, 1, 0, 7, 9, 11, 13, 0, 0, 0⟩).maxEV =
      ((List.range ([(⟨"f1", .left, .purple, 0⟩ : LogicPlot), ⟨"f2", .left, .blue, 1⟩] :
          List LogicPlot).length).map
        (candEV ⟨1, 1, 1, 0, 7, 9, 11, 13, 0, 0, 0⟩
          [⟨"f1", .left, .purple, 0⟩, ⟨"f2", .left, .blue, 1⟩])).foldl max (-1) :=
  ⟨by simp, c1_solve_maxEV_running_max [⟨"f1", .left, .purple, 0⟩, ⟨"f2", .left, .blue, 1⟩]
    ⟨1, 1, 1, 0, 7, 9, 11, 13, 0, 0, 0⟩ (by simp)⟩

/-- C1 counterexample: with a single plot whose per-choice expected value is
`-5` (all tier values `-5`), `solve` returns the sentinel `-1`, not the
running maximum over the plots' per-choice expected values (which is `-5`,
the only candidate). -/
theorem c1_counterexample :
    ¬ ((solve [⟨"f1", .left, .purple, 0⟩] ⟨1, 1, 1, 0, -5, -5, -5, -5, 0, 0, 0⟩).maxEV =
        candEV ⟨1, 1, 1, 0, -5, -5, -5, -5, 0, 0, 0⟩ [⟨"f1", .left, .purple, 0⟩] 0) := by
  have hg : immediateGain ⟨"f1", .left, .purple, 0⟩ ⟨1, 1, 1, 0, -5, -5, -5, -5, 0, 0, 0⟩ =
      (-5 : ℚ) := by
    rw [immediateGain_eval _ _ rfl rfl (by norm_num) rfl]
  rw [solve_single_eq, candEV_single, hg, if_neg (by norm_num)]
  norm_num

/-- C4 (confirmed): when every candidate's total expected value is at most
`-1`, the strict-improvement comparison never replaces the initial sentinel
`{maxEV := -1, path := []}`, so `solve` returns exactly the sentinel with an
undefined (`none`) `bestMoveId`. -/
theorem c4_sentinel_result (plots : List LogicPlot) (params : GameParams) (h : plots ≠ [])
    (hall : ∀ i, i < plots.length → candEV params plots i ≤ -1) :
    solve plots params = ⟨-1, [], none⟩ := by
  cases plots with
  | nil => exact absurd rfl h
  | cons p ps =>
    rw [solve_cons_eq]
    have H : ∀ s : List LogicPlot, s.length < (p :: ps).length →
        solveF ps.length s params = solve s params := by
      intro s hs
      refine solveF_eq_solve ps.length s params ?_
      simp only [List.length_cons] at hs
      omega
    exact foldl_step_fixed params (p :: ps) _ H (List.range (p :: ps).length) ⟨-1, [], none⟩
      fun i hi => ⟨List.mem_range.mp hi, hall i (List.mem_range.mp hi)⟩

theorem c4_witness :
    (([(⟨"f1", .left, .purple, 0⟩ : LogicPlot)] : List LogicPlot) ≠ [] ∧
      (∀ i, i < ([(⟨"f1", .left, .purple, 0⟩ : LogicPlot)] : List LogicPlot).length →
        candEV ⟨1, 1, 1, 0, -5, -5, -5, -5, 0, 0, 0⟩ [⟨"f1", .left, .purple, 0⟩] i ≤ -1)) ∧
    solve [⟨"f1", .left, .purple, 0⟩] ⟨1, 1, 1, 0, -5, -5, -5, -5, 0, 0, 0⟩ = ⟨-1, [], none⟩ := by
  have hall : ∀ i, i < ([(⟨"f1", .left, .purple, 0⟩ : LogicPlot)] : List LogicPlot).length →
      candEV ⟨1, 1, 1, 0, -5, -5, -5, -5, 0, 0, 0⟩ [⟨"f1", .left, .purple, 0⟩] i ≤ -1 := by
    intro i hi
    have h0 : i = 0 := by
      simp only [List.length_cons, List.length_nil] at hi
      omega
    subst h0
    rw [candEV_single, immediateGain_eval _ _ rfl rfl (by norm_num) rfl]
    norm_num
  exact ⟨⟨by simp, hall⟩,
    c4_sentinel_result [⟨"f1", .left, .purple, 0⟩] ⟨1, 1, 1, 0, -5, -5, -5, -5, 0, 0, 0⟩
      (by simp) hall⟩

/-- C2 (amended): in the two-plot same-field scenario (one purple, one blue,
both k = 0, survival probability 0, zero transition probabilities, equal
positive reference quantities), `solve` returns `maxEV` equal to the tier-1
value once — with B = 0 the neighbor always withers after the first harvest,
so only one plot is ever harvested — and the path holds exactly one step
description.  The tier-1 value must exceed the `-1` sentinel for the harvest
to be recorded at all. -/
theorem c2_two_plot_scenario (params : GameParams) (f : String)
    (hB : params.probSurvival = 0)
    (hp1 : params.probL1toL2 = 0) (hp2 : params.probL2toL3 = 0) (hp3 : params.probL3toL4 = 0)
    (hb : params.buyCountBlue = params.buyCountPurple)
    (hy : params.buyCountYellow = params.buyCountPurple)
    (hq : 0 < params.buyCountPurple) (hv : -1 < params.valL1) :
    (solve [⟨f, .left, .purple, 0⟩, ⟨f, .right, .blue, 0⟩] params).maxEV = params.valL1 ∧
    (solve [⟨f, .left, .purple, 0⟩, ⟨f, .right, .blue, 0⟩] params).path.length = 1 := by
  have g1 : immediateGain ⟨f, .left, .purple, 0⟩ params = params.valL1 :=
    immediateGain_eval _ _ hb hy hq rfl
  have g2 : immediateGain ⟨f, .right, .blue, 0⟩ params = params.valL1 :=
    immediateGain_eval _ _ hb hy hq rfl
  rw [solve_pair_eq, candEV_pair_same_field_0 params f _ _ _ _ _ _ hB,
    candEV_pair_same_field_1 params f _ _ _ _ _ _ hB, g1, g2, if_pos hv,
    if_neg (lt_irrefl params.valL1), if_pos hv, candPath_pair_same_field_0]
  exact ⟨rfl, rfl⟩

theorem c2_witness :
    ((1 : ℚ) = 1 ∧ (0 : ℚ) < 1 ∧ (-1 : ℚ) < 7) ∧
    (solve [⟨"f1", .left, .purple, 0⟩, ⟨"f1", .right, .blue, 0⟩]
        ⟨1, 1, 1, 0, 7, 9, 11, 13, 0, 0, 0⟩).maxEV = 7 ∧
    (solve [⟨"f1", .left, .purple, 0⟩, ⟨"f1", .right, .blue, 0⟩]
        ⟨1, 1, 1, 0, 7, 9, 11, 13, 0, 0, 0⟩).path.length = 1 :=
  ⟨⟨rfl, by decide, by decide⟩,
    c2_two_plot_scenario ⟨1, 1, 1, 0, 7, 9, 11, 13, 0, 0, 0⟩ "f1"
      rfl rfl rfl rfl rfl rfl (by decide) (by decide)⟩

/-- C2 counterexample: at a concrete instance of the scenario with tier-1
value 7, `solve` yields `maxEV = 7` and a one-step path, not `maxEV = 14`
(twice the tier-1 value) with a two-step path as the claim demands. -/
theorem c2_counterexample :
    ¬ ((solve [⟨"f1", .left, .purple, 0⟩, ⟨"f1", .right, .blue, 0⟩]
          ⟨1, 1, 1, 0, 7, 9, 11, 13, 0, 0, 0⟩).maxEV = 2 * 7 ∧
        (solve [⟨"f1", .left, .purple, 0⟩, ⟨"f1", .right, .blue, 0⟩]
          ⟨1, 1, 1, 0, 7, 9, 11, 13, 0, 0, 0⟩).path.length = 2) := by
  have g1 : immediateGain ⟨"f1", .left, .purple, 0⟩ ⟨1, 1, 1, 0, 7, 9, 11, 13, 0, 0, 0⟩ =
      (7 : ℚ) := by
    rw [immediateGain_eval _ _ rfl rfl (by norm_num) rfl]
  have g2 : immediateGain ⟨"f1", .right, .blue, 0⟩ ⟨1, 1, 1, 0, 7, 9, 11, 13, 0, 0, 0⟩ =
      (7 : ℚ) := by
    rw [immediateGain_eval _ _ rfl rfl (by norm_num) rfl]
  rw [solve_pair_eq, candEV_pair_same_field_0 _ _ _ _ _ _ _ _ rfl,
    candEV_pair_same_field_1 _ _ _ _ _ _ _ _ rfl, g1, g2,
    if_pos (show (7 : ℚ) > -1 by norm_num), if_neg (lt_irrefl (7 : ℚ)),
    if_pos (show (7 : ℚ) > -1 by norm_num)]
  intro hcontra
  have := hcontra.1
  norm_num at this

/-- C7 (amended): with two plots in different fields sharing color, `k`, and
hence multiplier and immediate gain, the two candidate expected values are
exactly equal, and the strict `>` comparison keeps the first plot in input
order: `bestMoveId` is the first plot's id.  The tied candidate value must
exceed the `-1` sentinel (guaranteed here by a nonnegative immediate gain);
otherwise neither plot is ever recorded, as the counterexample shows. -/
theorem c7_tie_break_first (params : GameParams) (P Q : LogicPlot)
    (hf : P.fieldId ≠ Q.fieldId) (hc : Q.color = P.color) (hk : Q.k = P.k)
    (hg : 0 ≤ immediateGain P params) :
    (solve [P, Q] params).bestMoveId = some (plotIdOf P) := by
  have hQP : immediateGain Q params = immediateGain P params := by
    simp [immediateGain, hc, hk]
  have hbump1 : bumpGlobal P.color Q = Q := by
    have hne : ¬ (Q.color ≠ P.color) := fun hh => hh hc
    simp only [bumpGlobal, if_neg hne]
  have hbump2 : bumpGlobal Q.color P = P := by
    have hne : ¬ (P.color ≠ Q.color) := fun hh => hh hc.symm
    simp only [bumpGlobal, if_neg hne]
  have hgt : immediateGain P params > -1 := by linarith
  have h2 : immediateGain P params + immediateGain P params > -1 := by linarith
  rw [solve_pair_eq, candEV_pair_diff_0 params P Q hf, candEV_pair_diff_1 params P Q hf,
    hbump1, hbump2, hQP, solve_single_eq Q params, solve_single_eq P params, hQP,
    if_pos hgt, if_pos hgt]
  simp only [apply_ite SolveResult.maxEV]
  rw [if_pos h2, if_neg (lt_irrefl (immediateGain P params + immediateGain P params)),
    if_pos h2]
  exact candId_pair_0 P Q

theorem c7_witness :
    ((⟨"f1", .left, .purple, 0⟩ : LogicPlot).fieldId ≠
        (⟨"f2", .right, .purple, 0⟩ : LogicPlot).fieldId ∧
      (0 : ℚ) ≤ immediateGain ⟨"f1", .left, .purple, 0⟩ ⟨1, 1, 1, 0, 7, 9, 11, 13, 0, 0, 0⟩) ∧
    (solve [⟨"f1", .left, .purple, 0⟩, ⟨"f2", .right, .purple, 0⟩]
        ⟨1, 1, 1, 0, 7, 9, 11, 13, 0, 0, 0⟩).bestMoveId =
      some (plotIdOf ⟨"f1", .left, .purple, 0⟩) := by
  have hg : (0 : ℚ) ≤ immediateGain ⟨"f1", .left, .purple, 0⟩
      ⟨1, 1, 1, 0, 7, 9, 11, 13, 0, 0, 0⟩ := by
    rw [immediateGain_eval _ _ rfl rfl (by norm_num) rfl]
    norm_num
  exact ⟨⟨by decide, hg⟩,
    c7_tie_break_first ⟨1, 1, 1, 0, 7, 9, 11, 13, 0, 0, 0⟩ _ _ (by decide) rfl rfl hg⟩

/-- C7 counterexample: two plots in different fields with identical color,
`k`, and multiplier, but immediate gain `-5`: every candidate stays at or
below the sentinel, so `bestMoveId` remains `none` instead of the first
plot's identity. -/
theorem c7_counterexample :
    ¬ ((solve [⟨"f1", .left, .purple, 0⟩, ⟨"f2", .left, .purple, 0⟩]
          ⟨1, 1, 1, 0, -5, -5, -5, -5, 0, 0, 0⟩).bestMoveId =
        some (plotIdOf ⟨"f1", .left, .purple, 0⟩)) := by
  have g1 : immediateGain ⟨"f1", .left, .purple, 0⟩ ⟨1, 1, 1, 0, -5, -5, -5, -5, 0, 0, 0⟩ =
      (-5 : ℚ) := by
    rw [immediateGain_eval _ _ rfl rfl (by norm_num) rfl]
  have g2 : immediateGain ⟨"f2", .left, .purple, 0⟩ ⟨1, 1, 1, 0, -5, -5, -5, -5, 0, 0, 0⟩ =
      (-5 : ℚ) := by
    rw [immediateGain_eval _ _ rfl rfl (by norm_num) rfl]
  rw [solve_pair_eq, candEV_pair_diff_0 _ _ _ (by decide), candEV_pair_diff_1 _ _ _ (by decide),
    show bumpGlobal (⟨"f1", .left, .purple, 0⟩ : LogicPlot).color
        (⟨"f2", .left, .purple, 0⟩ : LogicPlot) = ⟨"f2", .left, .purple, 0⟩ from rfl,
    show bumpGlobal (⟨"f2", .left, .purple, 0⟩ : LogicPlot).color
        (⟨"f1", .left, .purple, 0⟩ : LogicPlot) = ⟨"f1", .left, .purple, 0⟩ from rfl,
    solve_single_eq, solve_single_eq, g1, g2,
    if_neg (show ¬ ((-5 : ℚ) > -1) by norm_num),
    if_neg (show ¬ ((-5 : ℚ) > -1) by norm_num)]
  norm_num
  simp

/-! The memoized solver. -/

theorem solveMemoF_nil (fuel : Nat) (params : GameParams) (cache : ResultCache) :
    solveMemoF fuel [] params cache = ⟨⟨0, [], none⟩, cache⟩ := by
  cases fuel <;> rfl

/-- C9 (confirmed): calling `solve` a second time on the same state and
parameters with the cache left from the first call returns the identical
result (and leaves the cache unchanged): the first call stores the best
result under the state's canonical key, and the second call returns the
cached entry unchanged. -/
theorem c9_memo_idempotent (plots : List LogicPlot) (params : GameParams)
    (cache : ResultCache) (r : SolveResult) (c2 : ResultCache)
    (h : solveMemo plots params cache = ⟨r, c2⟩) : solveMemo plots params c2 = ⟨r, c2⟩ := by
  cases plots with
  | nil =>
    rw [solveMemo, solveMemoF_nil] at h
    have e1 : (⟨0, [], none⟩ : SolveResult) = r := congrArg Prod.fst h
    rw [solveMemo, solveMemoF_nil, e1]
  | cons p ps =>
    rw [solveMemo, List.length_cons] at h
    rw [solveMemo, List.length_cons]
    rw [solveMemoF] at h
    rw [solveMemoF]
    have hkey : c2.lookup (generateKey (p :: ps)) = some r := by
      cases hl : cache.lookup (generateKey (p :: ps)) with
      | some r0 =>
        rw [hl] at h
        have e1 : r0 = r := congrArg Prod.fst h
        have e2 : cache = c2 := congrArg Prod.snd h
        rw [← e2, hl, e1]
      | none =>
        rw [hl] at h
        rw [addKey] at h
        have e1 := congrArg Prod.fst h
        have e2 := congrArg Prod.snd h
        simp only at e1 e2
        rw [← e2, List.lookup, beq_self_eq_true]
        rw [e1]
    rw [hkey]

theorem c9_witness :
    solveMemo [⟨"f1", .left, .purple, 0⟩, ⟨"f1", .right, .blue, 0⟩]
        ⟨1, 1, 1, 0, 7, 9, 11, 13, 0, 0, 0⟩
        (solveMemo [⟨"f1", .left, .purple, 0⟩, ⟨"f1", .right, .blue, 0⟩]
          ⟨1, 1, 1, 0, 7, 9, 11, 13, 0, 0, 0⟩ clearMemo).2 =
      ⟨(solveMemo [⟨"f1", .left, .purple, 0⟩, ⟨"f1", .right, .blue, 0⟩]
          ⟨1, 1, 1, 0, 7, 9, 11, 13, 0, 0, 0⟩ clearMemo).1,
        (solveMemo [⟨"f1", .left, .purple, 0⟩, ⟨"f1", .right, .blue, 0⟩]
          ⟨1, 1, 1, 0, 7, 9, 11, 13, 0, 0, 0⟩ clearMemo).2⟩ :=
  c9_memo_idempotent _ _ clearMemo _ _ rfl

/-! Order theory of the comparator used by `generateKey`. -/

theorem charListLt_irrefl : ∀ l : List Char, charListLt l l = false := by
  intro l
  induction l with
  | nil => rfl
  | cons c cs ih => simp [charListLt, ih, lt_irrefl]

theorem charListLt_asymm : ∀ a b : List Char, charListLt a b = true → charListLt b a = false := by
  intro a
  induction a with
  | nil =>
    intro b hb
    cases b with
    | nil => simp [charListLt] at hb
    | cons y ys => rfl
  | cons x xs ih =>
    intro b hb
    cases b with
    | nil => simp [charListLt] at hb
    | cons y ys =>
      simp only [charListLt, Bool.or_eq_true, Bool.and_eq_true, decide_eq_true_eq,
        beq_iff_eq] at hb
      rcases hb with h | ⟨he, ht⟩
      · have h1 : decide (y < x) = false := decide_eq_false (lt_asymm h)
        have h2 : (y == x) = false := beq_eq_false_iff_ne.mpr h.ne'
        simp [charListLt, h1, h2]
      · subst he
        have h1 : decide (x < x) = false := decide_eq_false (lt_irrefl x)
        simp [charListLt, h1, ih ys ht]

theorem charListLt_trans : ∀ a b c : List Char,
    charListLt a b = true → charListLt b c = true → charListLt a c = true := by
  intro a
  induction a with
  | nil =>
    intro b c hab hbc
    cases b with
    | nil => simp [charListLt] at hab
    | cons y ys =>
      cases c with
      | nil => simp [charListLt] at hbc
      | cons z zs => rfl
  | cons x xs ih =>
    intro b c hab hbc
    cases b with
    | nil => simp [charListLt] at hab
    | cons y ys =>
      cases c with
      | nil => simp [charListLt] at hbc
      | cons z zs =>
        simp only [charListLt, Bool.or_eq_true, Bool.and_eq_true, decide_eq_true_eq,
          beq_iff_eq] at hab hbc ⊢
        rcases hab with h1 | ⟨he1, ht1⟩
        · rcases hbc with h2 | ⟨he2, ht2⟩
          · exact Or.inl (lt_trans h1 h2)
          · subst he2; exact Or.inl h1
        · subst he1
          rcases hbc with h2 | ⟨he2, ht2⟩
          · exact Or.inl h2
          · subst he2; exact Or.inr ⟨rfl, ih ys zs ht1 ht2⟩

theorem charListLt_conn : ∀ a b : List Char,
    charListLt a b = false → charListLt b a = false → a = b := by
  intro a
  induction a with
  | nil =>
    intro b h1 h2
    cases b with
    | nil => rfl
    | cons y ys => simp [charListLt] at h1
  | cons x xs ih =>
    intro b h1 h2
    cases b with
    | nil => simp [charListLt] at h2
    | cons y ys =>
      have hx : ¬ x < y := by
        intro hlt
        simp [charListLt, hlt] at h1
      have hy : ¬ y < x := by
        intro hlt
        simp [charListLt, hlt] at h2
      have he : x = y := le_antisymm (not_lt.mp hy) (not_lt.mp hx)
      subst he
      have hxs : charListLt xs ys = false := by
        by_contra hc
        rw [Bool.not_eq_false] at hc
        simp [charListLt, hc] at h1
      have hys : charListLt ys xs = false := by
        by_contra hc
        rw [Bool.not_eq_false] at hc
        simp [charListLt, hc] at h2
      rw [ih ys hxs hys]

/-! The decimal representation is injective and contains no delimiters. -/

theorem natVal_append_digit (l : List Char) (c : Char) :
    natVal (l ++ [c]) = 10 * natVal l + (c.toNat - 48) := by
  simp [natVal, List.foldl_append]

theorem digitChar_toNat : ∀ d, d < 10 → (Nat.digitChar d).toNat = 48 + d := by decide

theorem digitChar_clean : ∀ d, d < 10 → Nat.digitChar d ≠ ':' ∧ Nat.digitChar d ≠ '|' := by
  decide

theorem natCharsCore_val : ∀ fuel n, n ≤ fuel → natVal (natCharsCore fuel n) = n := by
  intro fuel
  induction fuel with
  | zero =>
    intro n hn
    have h0 : n = 0 := Nat.le_zero.mp hn
    subst h0
    rfl
  | succ f ih =>
    intro n hn
    cases n with
    | zero => rfl
    | succ m =>
      rw [natCharsCore, natVal_append_digit]
      have hdiv : (m + 1) / 10 ≤ f := by
        have hlt : (m + 1) / 10 < m + 1 := Nat.div_lt_self (Nat.succ_pos m) (by norm_num)
        omega
      rw [ih _ hdiv, digitChar_toNat _ (Nat.mod_lt _ (by norm_num))]
      omega

theorem natVal_natChars (n : Nat) : natVal (natChars n) = n := by
  by_cases h : n = 0
  · subst h; rfl
  · rw [natChars, if_neg h]
    exact natCharsCore_val n n le_rfl

theorem natChars_injective (a b : Nat) (h : natChars a = natChars b) : a = b := by
  have hv := congrArg natVal h
  rwa [natVal_natChars, natVal_natChars] at hv

theorem natCharsCore_clean : ∀ fuel n c, c ∈ natCharsCore fuel n → c ≠ ':' ∧ c ≠ '|' := by
  intro fuel
  induction fuel with
  | zero =>
    intro n c hc
    cases n with
    | zero => simp [natCharsCore] at hc
    | succ m => simp [natCharsCore] at hc
  | succ f ih =>
    intro n c hc
    cases n with
    | zero => simp [natCharsCore] at hc
    | succ m =>
      rw [natCharsCore, List.mem_append] at hc
      rcases hc with hc | hc
      · exact ih _ c hc
      · rw [List.mem_singleton] at hc
        subst hc
        exact digitChar_clean _ (Nat.mod_lt _ (by norm_num))

theorem natChars_clean (n : Nat) (c : Char) (hc : c ∈ natChars n) : c ≠ ':' ∧ c ≠ '|' := by
  by_cases h : n = 0
  · subst h
    simp [natChars] at hc
    subst hc
    exact ⟨by decide, by decide⟩
  · rw [natChars, if_neg h] at hc
    exact natCharsCore_clean n n c hc

/-! String-level plumbing for the key encoder. -/

theorem str_data_append (s t : String) : (s ++ t).data = s.data ++ t.data := by
  cases s
  cases t
  rfl

theorem string_data_inj {s t : String} (h : s.data = t.data) : s = t := by
  cases s
  cases t
  exact congrArg String.mk h

theorem append_sep_inj (c : Char) :
    ∀ (a1 b1 a2 b2 : List Char), c ∉ a1 → c ∉ a2 → a1 ++ c :: b1 = a2 ++ c :: b2 →
      a1 = a2 ∧ b1 = b2 := by
  intro a1
  induction a1 with
  | nil =>
    intro b1 a2 b2 h1 h2 heq
    cases a2 with
    | nil =>
      simp only [List.nil_append] at heq
      injection heq with hc hrest
      exact ⟨rfl, hrest⟩
    | cons y a2' =>
      simp only [List.nil_append, List.cons_append] at heq
      injection heq with hy hrest
      exact absurd (by rw [hy]; exact List.mem_cons_self y a2') h2
  | cons x a1' ih =>
    intro b1 a2 b2 h1 h2 heq
    cases a2 with
    | nil =>
      simp only [List.cons_append, List.nil_append] at heq
      injection heq with hx hrest
      exact absurd (by rw [← hx]; exact List.mem_cons_self x a1') h1
    | cons y a2' =>
      simp only [List.cons_append] at heq
      injection heq with hxy hrest
      subst hxy
      have h1' : c ∉ a1' := fun hm => h1 (List.mem_cons_of_mem _ hm)
      have h2' : c ∉ a2' := fun hm => h2 (List.mem_cons_of_mem _ hm)
      obtain ⟨e1, e2⟩ := ih b1 a2' b2 h1' h2' hrest
      exact ⟨by rw [e1], e2⟩

/-! Records of the key encoder. -/

theorem sideStr_clean : ∀ s : PlotSide, ∀ c ∈ (sideStr s).data, c ≠ ':' ∧ c ≠ '|' := by
  intro s
  cases s <;> decide

theorem colorStr_clean : ∀ s : CropColor, ∀ c ∈ (colorStr s).data, c ≠ ':' ∧ c ≠ '|' := by
  intro s
  cases s <;> decide

theorem sideStr_inj : ∀ a b : PlotSide, sideStr a = sideStr b → a = b := by
  intro a b
  cases a <;> cases b <;> decide

theorem colorStr_inj : ∀ a b : CropColor, colorStr a = colorStr b → a = b := by
  intro a b
  cases a <;> cases b <;> decide

theorem plotRecord_data (p : LogicPlot) :
    (plotRecord p).data =
      p.fieldId.data ++ ':' ::
        ((sideStr p.side).data ++ ':' :: ((colorStr p.color).data ++ ':' :: natChars p.k)) := by
  simp [plotRecord, str_data_append, natStr, List.append_assoc]

theorem plotRecord_no_bar (p : LogicPlot) (hf : '|' ∉ p.fieldId.data) :
    '|' ∉ (plotRecord p).data := by
  rw [plotRecord_data]
  intro hm
  simp only [List.mem_append, List.mem_cons] at hm
  rcases hm with h | h | h | h | h | h | h
  · exact hf h
  · exact absurd h (by decide)
  · exact (sideStr_clean _ _ h).2 rfl
  · exact absurd h (by decide)
  · exact (colorStr_clean _ _ h).2 rfl
  · exact absurd h (by decide)
  · exact (natChars_clean _ _ h).2 rfl

theorem plotRecord_ne_nil (p : LogicPlot) : (plotRecord p).data ≠ [] := by
  rw [plotRecord_data]
  simp

theorem plotRecord_inj (p q : LogicPlot)
    (hp : ':' ∉ p.fieldId.data) (hq : ':' ∉ q.fieldId.data)
    (h : plotRecord p = plotRecord q) : p = q := by
  have hd : (plotRecord p).data = (plotRecord q).data := congrArg String.data h
  rw [plotRecord_data, plotRecord_data] at hd
  obtain ⟨e1, e2⟩ := append_sep_inj ':' _ _ _ _ hp hq hd
  obtain ⟨e3, e4⟩ := append_sep_inj ':' _ _ _ _
    (fun hm => (sideStr_clean _ _ hm).1 rfl) (fun hm => (sideStr_clean _ _ hm).1 rfl) e2
  obtain ⟨e5, e6⟩ := append_sep_inj ':' _ _ _ _
    (fun hm => (colorStr_clean _ _ hm).1 rfl) (fun hm => (colorStr_clean _ _ hm).1 rfl) e4
  have hf : p.fieldId = q.fieldId := string_data_inj e1
  have hs : p.side = q.side := sideStr_inj _ _ (string_data_inj e3)
  have hc : p.color = q.color := colorStr_inj _ _ (string_data_inj e5)
  have hk : p.k = q.k := natChars_injective _ _ e6
  cases p
  cases q
  simp_all

/-! Injectivity of the join over delimiter-free records. -/

theorem joinBar_single (s : String) : joinBar [s] = s :=
  rfl

theorem joinBar_cons_cons (s t : String) (rest : List String) :
    joinBar (s :: t :: rest) = s ++ "|" ++ joinBar (t :: rest) :=
  rfl

theorem joinBar_inj : ∀ (xs ys : List String),
    (∀ s ∈ xs, '|' ∉ s.data ∧ s.data ≠ []) → (∀ s ∈ ys, '|' ∉ s.data ∧ s.data ≠ []) →
    joinBar xs = joinBar ys → xs = ys := by
  intro xs
  induction xs with
  | nil =>
    intro ys hxs hys h
    cases ys with
    | nil => rfl
    | cons y ys' =>
      exfalso
      cases ys' with
      | nil => exact (hys y (by simp)).2 (congrArg String.data h).symm
      | cons z zs =>
        have hd := congrArg String.data h
        rw [joinBar_cons_cons] at hd
        rw [str_data_append, str_data_append] at hd
        simp only [List.append_assoc, List.singleton_append] at hd
        exact absurd
          (show ('|' : Char) ∈ (joinBar ([] : List String)).data by rw [hd]; simp)
          (by decide)
  | cons x xs' ih =>
    intro ys hxs hys h
    cases ys with
    | nil =>
      exfalso
      cases xs' with
      | nil => exact (hxs x (by simp)).2 (congrArg String.data h)
      | cons z zs =>
        have hd := congrArg String.data h
        rw [joinBar_cons_cons] at hd
        rw [str_data_append, str_data_append] at hd
        simp only [List.append_assoc, List.singleton_append] at hd
        exact absurd
          (show ('|' : Char) ∈ (joinBar ([] : List String)).data by rw [← hd]; simp)
          (by decide)
    | cons y ys' =>
      cases xs' with
      | nil =>
        cases ys' with
        | nil => rw [joinBar_single, joinBar_single] at h; rw [h]
        | cons z zs =>
          exfalso
          have hd := congrArg String.data h
          rw [joinBar_single, joinBar_cons_cons] at hd
          rw [str_data_append, str_data_append] at hd
          refine (hxs x (by simp)).1 ?_
          rw [hd]
          simp
      | cons x2 xs2 =>
        cases ys' with
        | nil =>
          exfalso
          have hd := congrArg String.data h
          rw [joinBar_single, joinBar_cons_cons] at hd
          rw [str_data_append, str_data_append] at hd
          refine (hys y (by simp)).1 ?_
          rw [← hd]
          simp
        | cons y2 ys2 =>
          have hd := congrArg String.data h
          rw [joinBar_cons_cons, joinBar_cons_cons] at hd
          rw [str_data_append, str_data_append, str_data_append, str_data_append] at hd
          simp only [List.append_assoc, List.singleton_append] at hd
          obtain ⟨e1, e2⟩ := append_sep_inj '|' _ _ _ _
            (hxs x (by simp)).1 (hys y (by simp)).1 hd
          have ex : x = y := string_data_inj e1
          have erest : joinBar (x2 :: xs2) = joinBar (y2 :: ys2) := string_data_inj e2
          rw [ex, ih (y2 :: ys2) (fun s hs => hxs s (by simp [hs])) 
            (fun s hs => hys s (by simp [hs])) erest]

theorem map_plotRecord_inj : ∀ (xs ys : List LogicPlot),
    (∀ p ∈ xs, ':' ∉ p.fieldId.data) → (∀ p ∈ ys, ':' ∉ p.fieldId.data) →
    xs.map plotRecord = ys.map plotRecord → xs = ys := by
  intro xs
  induction xs with
  | nil =>
    intro ys _ _ h
    cases ys with
    | nil => rfl
    | cons q ys' => simp at h
  | cons p xs' ih =>
    intro ys hx hy h
    cases ys with
    | nil => simp at h
    | cons q ys' =>
      simp only [List.map_cons, List.cons.injEq] at h
      obtain ⟨hpq, hrest⟩ := h
      have e1 : p = q := plotRecord_inj p q (hx p (by simp)) (hy q (by simp)) hpq
      rw [e1, ih ys' (fun r hr => hx r (by simp [hr])) (fun r hr => hy r (by simp [hr])) hrest]

/-- C3 (amended): the encoder is injective on multisets — two plot lists with
equal keys are permutations of each other — provided no field identifier
contains one of the delimiter characters `:` or `|`.  The original claim's
premise that the delimiters "cannot appear inside an identifier" is not
enforced by the code: with a field identifier containing them, distinct
states collide (see the counterexample). -/
theorem c3_generateKey_injective (l1 l2 : List LogicPlot)
    (h1 : ∀ p ∈ l1, ':' ∉ p.fieldId.data ∧ '|' ∉ p.fieldId.data)
    (h2 : ∀ p ∈ l2, ':' ∉ p.fieldId.data ∧ '|' ∉ p.fieldId.data)
    (hk : generateKey l1 = generateKey l2) : l1.Perm l2 := by
  have hs1 : ∀ p ∈ sortPlots l1, ':' ∉ p.fieldId.data ∧ '|' ∉ p.fieldId.data :=
    fun p hp => h1 p ((List.perm_insertionSort plotLe l1).subset hp)
  have hs2 : ∀ p ∈ sortPlots l2, ':' ∉ p.fieldId.data ∧ '|' ∉ p.fieldId.data :=
    fun p hp => h2 p ((List.perm_insertionSort plotLe l2).subset hp)
  have hmap : (sortPlots l1).map plotRecord = (sortPlots l2).map plotRecord := by
    refine joinBar_inj _ _ ?_ ?_ hk
    · intro s hs
      obtain ⟨p, hp, rfl⟩ := List.mem_map.mp hs
      exact ⟨plotRecord_no_bar p (hs1 p hp).2, plotRecord_ne_nil p⟩
    · intro s hs
      obtain ⟨p, hp, rfl⟩ := List.mem_map.mp hs
      exact ⟨plotRecord_no_bar p (hs2 p hp).2, plotRecord_ne_nil p⟩
  have hsort : sortPlots l1 = sortPlots l2 :=
    map_plotRecord_inj _ _ (fun p hp => (hs1 p hp).1) (fun p hp => (hs2 p hp).1) hmap
  have h3 : (sortPlots l1).Perm l2 := by
    rw [hsort]
    exact List.perm_insertionSort plotLe l2
  exact (List.perm_insertionSort plotLe l1).symm.trans h3

theorem c3_witness :
    ((∀ p ∈ [(⟨"a", .left, .purple, 0⟩ : LogicPlot), ⟨"b", .right, .blue, 3⟩],
        ':' ∉ p.fieldId.data ∧ '|' ∉ p.fieldId.data) ∧
      (∀ p ∈ [(⟨"b", .right, .blue, 3⟩ : LogicPlot), ⟨"a", .left, .purple, 0⟩],
        ':' ∉ p.fieldId.data ∧ '|' ∉ p.fieldId.data) ∧
      generateKey [⟨"a", .left, .purple, 0⟩, ⟨"b", .right, .blue, 3⟩] =
        generateKey [⟨"b", .right, .blue, 3⟩, ⟨"a", .left, .purple, 0⟩]) ∧
    ([(⟨"a", .left, .purple, 0⟩ : LogicPlot), ⟨"b", .right, .blue, 3⟩].Perm
      [⟨"b", .right, .blue, 3⟩, ⟨"a", .left, .purple, 0⟩]) :=
  ⟨⟨by decide, by decide, by decide⟩,
    c3_generateKey_injective _ _ (by decide) (by decide) (by decide)⟩

/-- C3 counterexample: a field identifier may contain the delimiters, and
then two plot lists that differ as multisets (they do not even have the same
length) encode to exactly the same key string. -/
theorem c3_counterexample :
    generateKey [⟨"a", .left, .purple, 0⟩, ⟨"b", .left, .purple, 0⟩] =
      generateKey [⟨"a:left:purple:0|b", .left, .purple, 0⟩] ∧
    ¬ ([(⟨"a", .left, .purple, 0⟩ : LogicPlot), ⟨"b", .left, .purple, 0⟩].Perm
        [⟨"a:left:purple:0|b", .left, .purple, 0⟩]) := by
  constructor
  · decide
  · intro hp
    have hlen := hp.length_eq
    simp at hlen

/-! The comparator is a total preorder; its strict part is antisymmetric. -/

instance : IsTotal LogicPlot plotLe := ⟨by
  intro a b
  unfold plotLe plotLeb
  by_cases hf : a.fieldId = b.fieldId
  · rw [if_pos (show (a.fieldId == b.fieldId) = true from beq_iff_eq.mpr hf),
      if_pos (show (b.fieldId == a.fieldId) = true from beq_iff_eq.mpr hf.symm)]
    cases hlt : localeLt (sideStr b.side) (sideStr a.side) with
    | false => left; rfl
    | true =>
      right
      have h2 : charListLt (sideStr a.side).data (sideStr b.side).data = false :=
        charListLt_asymm _ _ hlt
      rw [show localeLt (sideStr a.side) (sideStr b.side) =
        charListLt (sideStr a.side).data (sideStr b.side).data from rfl, h2]
      rfl
  · rw [if_neg (show ¬ ((a.fieldId == b.fieldId) = true) from by simp [hf]),
      if_neg (show ¬ ((b.fieldId == a.fieldId) = true) from by simp [Ne.symm hf])]
    cases h1 : localeLt a.fieldId b.fieldId with
    | true => left; rfl
    | false =>
      cases h2 : localeLt b.fieldId a.fieldId with
      | true => right; rfl
      | false =>
        exact absurd (string_data_inj (charListLt_conn _ _ h1 h2)) hf⟩

instance : IsTrans LogicPlot plotLe := ⟨by
  intro a b c hab hbc
  unfold plotLe plotLeb at hab hbc ⊢
  by_cases hfab : a.fieldId = b.fieldId
  · by_cases hfbc : b.fieldId = c.fieldId
    · have hfac : a.fieldId = c.fieldId := hfab.trans hfbc
      rw [if_pos (show (a.fieldId == b.fieldId) = true from beq_iff_eq.mpr hfab)] at hab
      rw [if_pos (show (b.fieldId == c.fieldId) = true from beq_iff_eq.mpr hfbc)] at hbc
      rw [if_pos (show (a.fieldId == c.fieldId) = true from beq_iff_eq.mpr hfac)]
      rw [Bool.not_eq_true'] at hab hbc ⊢
      cases hca : charListLt (sideStr c.side).data (sideStr a.side).data with
      | false => exact hca
      | true =>
        exfalso
        cases hbc2 : charListLt (sideStr b.side).data (sideStr c.side).data with
        | true =>
          have htr := charListLt_trans _ _ _ hbc2 hca
          have hab' : charListLt (sideStr b.side).data (sideStr a.side).data = false := hab
          rw [htr] at hab'
          exact Bool.noConfusion hab'
        | false =>
          have heq := charListLt_conn _ _ hbc2
            (show charListLt (sideStr c.side).data (sideStr b.side).data = false from hbc)
          have hab' : charListLt (sideStr b.side).data (sideStr a.side).data = false := hab
          rw [heq, hca] at hab'
          exact Bool.noConfusion hab'
    · rw [if_neg (show ¬ ((b.fieldId == c.fieldId) = true) from by simp [hfbc])] at hbc
      have hfac : a.fieldId ≠ c.fieldId := by rw [hfab]; exact hfbc
      rw [if_neg (show ¬ ((a.fieldId == c.fieldId) = true) from by simp [hfac])]
      have hre : localeLt a.fieldId c.fieldId = localeLt b.fieldId c.fieldId := by rw [hfab]
      rw [hre]
      exact hbc
  · by_cases hfbc : b.fieldId = c.fieldId
    · rw [if_neg (show ¬ ((a.fieldId == b.fieldId) = true) from by simp [hfab])] at hab
      have hfac : a.fieldId ≠ c.fieldId := by rw [← hfbc]; exact hfab
      rw [if_neg (show ¬ ((a.fieldId == c.fieldId) = true) from by simp [hfac])]
      have hre : localeLt a.fieldId c.fieldId = localeLt a.fieldId b.fieldId := by rw [hfbc]
      rw [hre]
      exact hab
    · rw [if_neg (show ¬ ((a.fieldId == b.fieldId) = true) from by simp [hfab])] at hab
      rw [if_neg (show ¬ ((b.fieldId == c.fieldId) = true) from by simp [hfbc])] at hbc
      have htr : charListLt a.fieldId.data c.fieldId.data = true :=
        charListLt_trans _ _ _ hab hbc
      have hfac : a.fieldId ≠ c.fieldId := by
        intro he
        have hba : charListLt b.fieldId.data a.fieldId.data = true := by rw [he]; exact hbc
        have hasy := charListLt_asymm _ _ hab
        rw [hba] at hasy
        exact Bool.noConfusion hasy
      rw [if_neg (show ¬ ((a.fieldId == c.fieldId) = true) from by simp [hfac])]
      exact htr⟩

instance : IsAntisymm LogicPlot plotLt := ⟨by
  intro a b h1 h2
  unfold plotLt at h1 h2
  by_cases hf : a.fieldId = b.fieldId
  · rw [if_pos hf] at h1
    rw [if_pos hf.symm] at h2
    have hasy := charListLt_asymm _ _ h1
    rw [h2] at hasy
    exact Bool.noConfusion hasy
  · rw [if_neg hf] at h1
    rw [if_neg (Ne.symm hf)] at h2
    have hasy := charListLt_asymm _ _ h1
    rw [h2] at hasy
    exact Bool.noConfusion hasy⟩

theorem sorted_le_lt (l : List LogicPlot) (hs : List.Sorted plotLe l)
    (hnd : (l.map fun p => (p.fieldId, p.side)).Nodup) : List.Sorted plotLt l := by
  have hnd' : l.Pairwise fun a b => (a.fieldId, a.side) ≠ (b.fieldId, b.side) :=
    List.pairwise_map.mp hnd
  have hcomb := hs.and hnd'
  refine hcomb.imp ?_
  intro a b hx
  obtain ⟨hle, hne⟩ := hx
  unfold plotLe plotLeb at hle
  unfold plotLt
  by_cases hf : a.fieldId = b.fieldId
  · rw [if_pos (show (a.fieldId == b.fieldId) = true from beq_iff_eq.mpr hf)] at hle
    rw [if_pos hf]
    rw [Bool.not_eq_true'] at hle
    have hsne : a.side ≠ b.side := by
      intro hss
      exact hne (by rw [hf, hss])
    cases h2 : charListLt (sideStr a.side).data (sideStr b.side).data with
    | true => rfl
    | false =>
      exfalso
      have heq := charListLt_conn _ _ h2 hle
      exact hsne (sideStr_inj _ _ (string_data_inj heq))
  · rw [if_neg (show ¬ ((a.fieldId == b.fieldId) = true) from by simp [hf])] at hle
    rw [if_neg hf]
    exact hle

/-- C5 (amended): `encode` is permutation-invariant on plot lists whose
(fieldId, side) identities are pairwise distinct — the documented field
invariant: a field has at most one left and one right plot.  Shuffling such a
list never changes the key.  With a duplicated (fieldId, side) identity the
stable sort preserves the input order of the duplicates and permutation
invariance fails, as the counterexample shows. -/
theorem c5_generateKey_perm_invariant (l1 l2 : List LogicPlot) (hp : l1.Perm l2)
    (hnd : (l1.map fun p => (p.fieldId, p.side)).Nodup) :
    generateKey l1 = generateKey l2 := by
  have hs1 : List.Sorted plotLe (sortPlots l1) := List.sorted_insertionSort plotLe l1
  have hs2 : List.Sorted plotLe (sortPlots l2) := List.sorted_insertionSort plotLe l2
  have hnd2 : (l2.map fun p => (p.fieldId, p.side)).Nodup := ((hp.map _).nodup_iff).mp hnd
  have hnds1 : ((sortPlots l1).map fun p => (p.fieldId, p.side)).Nodup :=
    (((List.perm_insertionSort plotLe l1).map _).nodup_iff).mpr hnd
  have hnds2 : ((sortPlots l2).map fun p => (p.fieldId, p.side)).Nodup :=
    (((List.perm_insertionSort plotLe l2).map _).nodup_iff).mpr hnd2
  have hlt1 := sorted_le_lt _ hs1 hnds1
  have hlt2 := sorted_le_lt _ hs2 hnds2
  have hperm : (sortPlots l1).Perm (sortPlots l2) :=
    (List.perm_insertionSort plotLe l1).trans
      (hp.trans (List.perm_insertionSort plotLe l2).symm)
  have hsorteq : sortPlots l1 = sortPlots l2 :=
    List.eq_of_perm_of_sorted hperm hlt1 hlt2
  simp only [generateKey]
  rw [hsorteq]

theorem c5_witness :
    (([(⟨"a", .left, .purple, 0⟩ : LogicPlot), ⟨"b", .right, .blue, 3⟩].Perm
        [⟨"b", .right, .blue, 3⟩, ⟨"a", .left, .purple, 0⟩]) ∧
      ([(⟨"a", .left, .purple, 0⟩ : LogicPlot), ⟨"b", .right, .blue, 3⟩].map
        fun p => (p.fieldId, p.side)).Nodup) ∧
    generateKey [⟨"a", .left, .purple, 0⟩, ⟨"b", .right, .blue, 3⟩] =
      generateKey [⟨"b", .right, .blue, 3⟩, ⟨"a", .left, .purple, 0⟩] :=
  ⟨⟨List.Perm.swap _ _ _, by decide⟩,
    c5_generateKey_perm_invariant _ _ (List.Perm.swap _ _ _) (by decide)⟩

/-- C5 counterexample: two plots with the same (fieldId, side) identity but
different colors: the stable sort keeps them in input order, so swapping the
input list changes the encoded key. -/
theorem c5_counterexample :
    ([(⟨"f", .left, .purple, 3⟩ : LogicPlot), ⟨"f", .left, .blue, 4⟩].Perm
        [⟨"f", .left, .blue, 4⟩, ⟨"f", .left, .purple, 3⟩]) ∧
      generateKey [⟨"f", .left, .purple, 3⟩, ⟨"f", .left, .blue, 4⟩] ≠
        generateKey [⟨"f", .left, .blue, 4⟩, ⟨"f", .left, .purple, 3⟩] :=
  ⟨List.Perm.swap _ _ _, by decide⟩
